import Mathlib

/-!
Verification of the offline entry queue and synchronization subsystem of the
legal-time-tracker client (src/static/offline.js and the caching worker).

The embedding models, from the source:
  * `saveOfflineEntry`   (offline.js lines 81-95)
  * `loadPendingEntries` (offline.js lines 97-108), over a JSON-level model of
    `localStorage` contents together with an executable JSON parser standing
    for `JSON.parse`
  * `syncPendingEntries` (offline.js lines 110-162), the drain loop, with the
    per-request network outcome supplied by an environment function
  * the worker's `sync` event handler and `syncOfflineEntries`
    (service worker source, lines 60-70)

Field values carried by an entry (client, matter, hours, desc, date_of_work,
timekeeper) are opaque payload strings: the drain never inspects them, it only
copies them into request bodies, so their JS runtime type is irrelevant here.

Each entry additionally carries a ghost field `tag`, not present in the JS
object: it stands for JS object identity (the queue holds distinct objects even
when their field values coincide).  `tag` is assigned from a fresh counter at
append time and is never read by any modelled operation, so it does not affect
behaviour; it only lets theorems speak about "this particular appended entry".
-/

/-- Payload of a pending entry, as assembled by the entry form
(offline.js lines 222-229) and passed to `saveOfflineEntry`. -/
structure EntryData where
  client : String
  matter : String
  date_of_work : String
  hours : String
  timekeeper : String
  desc : String
deriving DecidableEq

/-- A queued offline entry: the object literal built in `saveOfflineEntry`
(offline.js lines 83-88): the spread of the form payload plus `id`,
`timestamp` and `synced`.  `tag` is the ghost identity marker. -/
structure Entry where
  client : String
  matter : String
  date_of_work : String
  hours : String
  timekeeper : String
  desc : String
  id : String
  timestamp : Nat
  synced : Bool
  tag : Nat
deriving DecidableEq

/-- Outcome of one `fetch('/api/quick-entry', ...)` call inside the drain loop:
a 2xx response (`response.ok`), a non-2xx response, or a rejected promise
(transport/network error caught by the `catch` block). -/
inductive Outcome where
  | ok
  | httpError
  | transportError
deriving DecidableEq

/-- The JSON body built for the POST request (offline.js lines 127-133),
as an ordered field list exactly mirroring the object literal. -/
def requestBody (e : Entry) : List (String × String) :=
  [("client", e.client), ("matter", e.matter), ("hours", e.hours),
   ("desc", e.desc), ("date_of_work", e.date_of_work)]

/-- Page-context state: the in-memory `this.pendingEntries` array and the
`localStorage['pendingEntries']` slot (held at the entry-list level; the
JSON round-trip through `JSON.stringify`/`JSON.parse` is the identity on
well-formed queue data).  `nextTag` is the ghost identity counter. -/
structure OfflineState where
  pendingEntries : List Entry
  storage : Option (List Entry)
  nextTag : Nat
deriving DecidableEq

/-- Fresh page state: `this.pendingEntries = []` from the constructor and an
empty `localStorage`. -/
def initState : OfflineState :=
  { pendingEntries := [], storage := none, nextTag := 0 }

/-- The entry object built by `saveOfflineEntry` (offline.js lines 82-88):
`{...entryData, id: offline_<timestamp>, timestamp, synced: false}`. -/
def mkEntry (d : EntryData) (now : Nat) (tag : Nat) : Entry :=
  { client := d.client, matter := d.matter, date_of_work := d.date_of_work,
    hours := d.hours, timekeeper := d.timekeeper, desc := d.desc,
    id := "offline_" ++ Nat.repr now, timestamp := now, synced := false,
    tag := tag }

/-- Observable events of one operation: the entries for which a POST was
issued (in issue order; the body is `requestBody` of the entry) and the
entries pushed onto `successfulSyncs` (those answered 2xx). -/
structure StepLog where
  requests : List Entry
  accepted : List Entry
deriving DecidableEq

/-- `saveOfflineEntry` (offline.js lines 81-95): build the entry, push it,
persist the whole collection.  `now` is the `Date.now()` reading. -/
def saveOfflineEntry (d : EntryData) (now : Nat) (s : OfflineState) :
    OfflineState × StepLog :=
  let e := mkEntry d now s.nextTag
  let q := s.pendingEntries ++ [e]
  ({ pendingEntries := q, storage := some q, nextTag := s.nextTag + 1 },
   { requests := [], accepted := [] })

/-- Result of the `for (const entry of this.pendingEntries)` loop of
`syncPendingEntries` (offline.js lines 117-147): the entry array after the
in-place `entry.synced = true` mutations, the `successfulSyncs` list, and the
POSTs issued. -/
structure LoopOut where
  updated : List Entry
  succeeded : List Entry
  requests : List Entry
deriving DecidableEq

/-- The drain loop (offline.js lines 117-147).  `env k` is the outcome of the
k-th fetch issued in this pass.  Entries already marked `synced` are skipped
(`continue`); a 2xx response marks the entry synced and records it; a non-2xx
response only logs; a transport error executes `break`, leaving the rest of
the array untouched. -/
def syncLoop (env : Nat → Outcome) : List Entry → Nat → LoopOut
  | [], _ => { updated := [], succeeded := [], requests := [] }
  | e :: es, k =>
    if e.synced then
      let r := syncLoop env es k
      { updated := e :: r.updated, succeeded := r.succeeded,
        requests := r.requests }
    else
      match env k with
      | .ok =>
        let e' := { e with synced := true }
        let r := syncLoop env es (k + 1)
        { updated := e' :: r.updated, succeeded := e' :: r.succeeded,
          requests := e :: r.requests }
      | .httpError =>
        let r := syncLoop env es (k + 1)
        { updated := e :: r.updated, succeeded := r.succeeded,
          requests := e :: r.requests }
      | .transportError =>
        { updated := e :: es, succeeded := [], requests := [e] }

/-- `syncPendingEntries` (offline.js lines 110-162): early return on an empty
queue; otherwise run the loop, then replace the queue by the entries still
unsynced and persist it. -/
def syncPendingEntries (env : Nat → Outcome) (s : OfflineState) :
    OfflineState × StepLog :=
  if s.pendingEntries.length = 0 then
    (s, { requests := [], accepted := [] })
  else
    let r := syncLoop env s.pendingEntries 0
    let remaining := r.updated.filter (fun e => !e.synced)
    ({ s with pendingEntries := remaining, storage := some remaining },
     { requests := r.requests, accepted := r.succeeded })

/-- An operation of the page: an append (with its `Date.now()` reading) or a
drain call (with the network environment answering its fetches). -/
inductive Op where
  | save (d : EntryData) (now : Nat)
  | drain (env : Nat → Outcome)

/-- One operation applied to the state. -/
def step (s : OfflineState) : Op → OfflineState × StepLog
  | .save d now => saveOfflineEntry d now s
  | .drain env => syncPendingEntries env s

/-- A sequence of operations, collecting each operation's log. -/
def run (s : OfflineState) : List Op → OfflineState × List StepLog
  | [] => (s, [])
  | op :: ops =>
    let p := step s op
    let q := run p.1 ops
    (q.1, p.2 :: q.2)

/-- Ghost tags of the queued entries. -/
def queueTags (s : OfflineState) : List Nat :=
  s.pendingEntries.map Entry.tag

/-- Tags accepted (2xx) across a list of step logs. -/
def acceptedTags (logs : List StepLog) : List Nat :=
  (logs.map (fun l => l.accepted.map Entry.tag)).flatten

/-- How many times tag `t` was accepted across the logs. -/
def acceptedCount (logs : List StepLog) (t : Nat) : Nat :=
  (acceptedTags logs).count t

/-- The entries whose requests were not answered 2xx, in order: the spec-side
description ("the persisted queue consists of exactly the entries whose
requests did not succeed, in their original order") of what survives a drain
prefix, with `env` consulted from request index `k`. -/
def notAccepted (env : Nat → Outcome) : Nat → List Entry → List Entry
  | _, [] => []
  | k, e :: es =>
    if env k = .ok then notAccepted env (k + 1) es
    else e :: notAccepted env (k + 1) es

/-!
JSON-level model of `loadPendingEntries`.  The source assigns whatever
`JSON.parse` returns to `this.pendingEntries`, so loading is modelled on JSON
values, with an executable parser standing for `JSON.parse` (strict JSON
grammar: literals, strings with escapes, numbers without leading zeros,
arrays, objects; a number keeps its lexeme, since nothing here computes with
numeric values).  `\u` escapes for surrogate code points collapse to the
`Char.ofNat` default; only parse success and structure matter here.
-/

/-- JSON values. -/
inductive Json where
  | null : Json
  | bool (b : Bool) : Json
  | num (lexeme : String) : Json
  | str (s : String) : Json
  | arr (elems : List Json) : Json
  | obj (fields : List (String × Json)) : Json

/-- JSON insignificant whitespace. -/
def isJsonWs (c : Char) : Bool :=
  c = ' ' || c = '\t' || c = '\n' || c = '\r'

/-- Drop leading JSON whitespace. -/
def skipWs : List Char → List Char
  | [] => []
  | c :: cs => if isJsonWs c then skipWs cs else c :: cs

/-- Value of a hexadecimal digit. -/
def hexVal? (c : Char) : Option Nat :=
  if '0' ≤ c ∧ c ≤ '9' then some (c.toNat - '0'.toNat)
  else if 'a' ≤ c ∧ c ≤ 'f' then some (c.toNat - 'a'.toNat + 10)
  else if 'A' ≤ c ∧ c ≤ 'F' then some (c.toNat - 'A'.toNat + 10)
  else none

/-- Single-character JSON string escapes. -/
def escChar? (c : Char) : Option Char :=
  if c = '"' then some '"'
  else if c = '\\' then some '\\'
  else if c = '/' then some '/'
  else if c = 'b' then some (Char.ofNat 8)
  else if c = 'f' then some (Char.ofNat 12)
  else if c = 'n' then some '\n'
  else if c = 'r' then some '\r'
  else if c = 't' then some '\t'
  else none

/-- Parse a JSON string body (the opening quote already consumed): returns the
decoded content and the remaining input. -/
def parseStringBody : List Char → Except String (List Char × List Char)
  | [] => .error "unterminated string"
  | '"' :: cs => .ok ([], cs)
  | '\\' :: 'u' :: a :: b :: c :: d :: cs =>
    match hexVal? a, hexVal? b, hexVal? c, hexVal? d with
    | some ha, some hb, some hc, some hd =>
      match parseStringBody cs with
      | .ok p => .ok (Char.ofNat (((ha * 16 + hb) * 16 + hc) * 16 + hd) :: p.1, p.2)
      | .error msg => .error msg
    | _, _, _, _ => .error "invalid unicode escape"
  | '\\' :: e :: cs =>
    match escChar? e with
    | some ch =>
      match parseStringBody cs with
      | .ok p => .ok (ch :: p.1, p.2)
      | .error msg => .error msg
    | none => .error "invalid escape"
  | c :: cs =>
    if c.toNat < 32 then .error "control character in string"
    else
      match parseStringBody cs with
      | .ok p => .ok (c :: p.1, p.2)
      | .error msg => .error msg

/-- Take a maximal run of decimal digits. -/
def takeDigits : List Char → List Char × List Char
  | [] => ([], [])
  | c :: cs =>
    if c.isDigit then
      let p := takeDigits cs
      (c :: p.1, p.2)
    else ([], c :: cs)

/-- Parse an optional exponent part and finish a number whose integer and
fraction parts are already in `acc`. -/
def parseExponent (acc : List Char) (cs : List Char) : Except String (Json × List Char) :=
  match cs with
  | c :: cs' =>
    if c = 'e' ∨ c = 'E' then
      let p :=
        match cs' with
        | s :: cs'' => if s = '+' ∨ s = '-' then ([s], cs'') else (([] : List Char), cs')
        | [] => (([] : List Char), cs')
      let d := takeDigits p.2
      if d.1.isEmpty then .error "missing exponent digits"
      else .ok (.num (String.mk (acc ++ c :: (p.1 ++ d.1))), d.2)
    else .ok (.num (String.mk acc), c :: cs')
  | [] => .ok (.num (String.mk acc), [])

/-- Parse a JSON number starting at `cs` (strict grammar: optional minus,
no leading zeros, optional fraction and exponent). -/
def parseNumber (cs : List Char) : Except String (Json × List Char) :=
  let p :=
    match cs with
    | '-' :: r => (['-'], r)
    | _ => (([] : List Char), cs)
  let d := takeDigits p.2
  if d.1.isEmpty then .error "invalid number"
  else if d.1.length > 1 ∧ d.1.headD '1' = '0' then .error "leading zero"
  else
    match d.2 with
    | '.' :: r =>
      let f := takeDigits r
      if f.1.isEmpty then .error "missing fraction digits"
      else parseExponent (p.1 ++ d.1 ++ '.' :: f.1) f.2
    | _ => parseExponent (p.1 ++ d.1) d.2

mutual

/-- Parse one JSON value (fuel-indexed recursive descent). -/
def parseValue : Nat → List Char → Except String (Json × List Char)
  | 0, _ => .error "input too deeply nested"
  | fuel + 1, cs =>
    match skipWs cs with
    | [] => .error "unexpected end of input"
    | 'n' :: 'u' :: 'l' :: 'l' :: rest => .ok (.null, rest)
    | 't' :: 'r' :: 'u' :: 'e' :: rest => .ok (.bool true, rest)
    | 'f' :: 'a' :: 'l' :: 's' :: 'e' :: rest => .ok (.bool false, rest)
    | '"' :: rest =>
      match parseStringBody rest with
      | .ok p => .ok (.str (String.mk p.1), p.2)
      | .error e => .error e
    | '[' :: rest =>
      match skipWs rest with
      | ']' :: r => .ok (.arr [], r)
      | r =>
        match parseValue fuel r with
        | .ok pv =>
          match parseArrayTail fuel pv.2 with
          | .ok pt => .ok (.arr (pv.1 :: pt.1), pt.2)
          | .error e => .error e
        | .error e => .error e
    | '{' :: rest =>
      match skipWs rest with
      | '}' :: r => .ok (.obj [], r)
      | '"' :: r =>
        match parseMember fuel r with
        | .ok pm =>
          match parseObjectTail fuel pm.2 with
          | .ok pt => .ok (.obj (pm.1 :: pt.1), pt.2)
          | .error e => .error e
        | .error e => .error e
      | _ => .error "expected object key"
    | c :: rest =>
      if c = '-' ∨ c.isDigit then parseNumber (c :: rest)
      else .error "unexpected character"

/-- Parse one object member, positioned just after the key's opening quote. -/
def parseMember : Nat → List Char → Except String ((String × Json) × List Char)
  | 0, _ => .error "input too deeply nested"
  | fuel + 1, cs =>
    match parseStringBody cs with
    | .ok pk =>
      match skipWs pk.2 with
      | ':' :: r =>
        match parseValue fuel r with
        | .ok pv => .ok ((String.mk pk.1, pv.1), pv.2)
        | .error e => .error e
      | _ => .error "expected colon"
    | .error e => .error e

/-- Parse the rest of an array after its first element. -/
def parseArrayTail : Nat → List Char → Except String (List Json × List Char)
  | 0, _ => .error "input too deeply nested"
  | fuel + 1, cs =>
    match skipWs cs with
    | ']' :: r => .ok ([], r)
    | ',' :: r =>
      match parseValue fuel r with
      | .ok pv =>
        match parseArrayTail fuel pv.2 with
        | .ok pt => .ok (pv.1 :: pt.1, pt.2)
        | .error e => .error e
      | .error e => .error e
    | _ => .error "expected comma or closing bracket"

/-- Parse the rest of an object after its first member. -/
def parseObjectTail : Nat → List Char → Except String (List (String × Json) × List Char)
  | 0, _ => .error "input too deeply nested"
  | fuel + 1, cs =>
    match skipWs cs with
    | '}' :: r => .ok ([], r)
    | ',' :: r =>
      match skipWs r with
      | '"' :: r2 =>
        match parseMember fuel r2 with
        | .ok pm =>
          match parseObjectTail fuel pm.2 with
          | .ok pt => .ok (pm.1 :: pt.1, pt.2)
          | .error e => .error e
        | .error e => .error e
      | _ => .error "expected object key"
    | _ => .error "expected comma or closing brace"

end

/-- The `JSON.parse` model: a complete value followed only by whitespace. -/
def parseJson (s : String) : Except String Json :=
  match parseValue (s.length + 1) s.data with
  | .ok pv => if (skipWs pv.2).isEmpty then .ok pv.1 else .error "unexpected trailing characters"
  | .error e => .error e

/-- Whether `JSON.parse` raises on this input. -/
def parseFails (s : String) : Bool :=
  match parseJson s with
  | .ok _ => false
  | .error _ => true

/-- `loadPendingEntries` (offline.js lines 97-108): `stored` is the value of
`localStorage.getItem('pendingEntries')` (`none` for a missing key) and
`pendingEntries` the current value of `this.pendingEntries` (the constructor
sets it to an empty array before `init` calls this).  The `if (stored)` guard
skips both `null` and the empty string; a parse failure is caught and the
queue reset to `[]`; a parse success is assigned as-is. -/
def loadPendingEntries (stored : Option String) (pendingEntries : Json) : Json :=
  match stored with
  | none => pendingEntries
  | some s =>
    if s.isEmpty then pendingEntries
    else
      match parseJson s with
      | .ok v => v
      | .error _ => Json.arr []

/-- Valid serialized queue data: a JSON array whose elements are objects. -/
def Json.isQueueShape : Json → Bool
  | .arr elems => elems.all (fun v => match v with | .obj _ => true | _ => false)
  | _ => false

/-- Whether a stored string is valid serialized queue data. -/
def validSerializedQueue (s : String) : Bool :=
  match parseJson s with
  | .ok v => v.isQueueShape
  | .error _ => false

/-- Observable effects of the worker's sync handling: POST requests issued and
console output produced. -/
structure SwEffects where
  requests : List Entry
  logs : List String
deriving DecidableEq

/-- `syncOfflineEntries` of the caching worker (worker source lines 67-70):
its whole body is `console.log('Background sync triggered')`; it issues no
request and has no access to the page's queue. -/
def syncOfflineEntries : SwEffects :=
  { requests := [], logs := ["Background sync triggered"] }

/-- The worker's `sync` event listener (worker source lines 61-65): on tag
`background-sync` it awaits `syncOfflineEntries()`; any other tag is ignored. -/
def handleSyncEvent (tag : String) : SwEffects :=
  if tag = "background-sync" then syncOfflineEntries
  else { requests := [], logs := [] }

/-!  Characterization of the drain loop. -/

theorem syncLoop_updated_map {α : Type} (f : Entry → α)
    (hf : ∀ e, f { e with synced := true } = f e) (env : Nat → Outcome) :
    ∀ (es : List Entry) (k : Nat),
      (syncLoop env es k).updated.map f = es.map f := by
  intro es
  induction es with
  | nil => intro k; rfl
  | cons e es ih =>
    intro k
    simp only [syncLoop]
    cases hs : e.synced <;> simp only [Bool.false_eq_true, if_false, if_true]
    · cases henv : env k <;> simp [ih, hf]
    · simp [ih]

theorem syncLoop_succeeded_eq_filter (env : Nat → Outcome) :
    ∀ (es : List Entry) (k : Nat), (∀ e ∈ es, e.synced = false) →
      (syncLoop env es k).succeeded =
        (syncLoop env es k).updated.filter (fun e => e.synced) := by
  intro es
  induction es with
  | nil => intro k _; rfl
  | cons e es ih =>
    intro k h
    have he : e.synced = false := h e (by simp)
    have hes : ∀ x ∈ es, x.synced = false := fun x hx => h x (by simp [hx])
    simp only [syncLoop, he, Bool.false_eq_true, if_false]
    cases henv : env k
    · simp [ih (k + 1) hes]
    · simp [he, ih (k + 1) hes]
    · simp only [LoopOut.succeeded, LoopOut.updated]
      rw [List.filter_cons_of_neg (by simp [he]), List.filter_eq_nil_iff.mpr]
      intro x hx
      simp [hes x hx]

theorem syncLoop_requests_sub (env : Nat → Outcome) :
    ∀ (es : List Entry) (k : Nat), ∀ a ∈ (syncLoop env es k).requests,
      a ∈ es ∧ a.synced = false := by
  intro es
  induction es with
  | nil => intro k a ha; simp [syncLoop] at ha
  | cons e es ih =>
    intro k a ha
    simp only [syncLoop] at ha
    cases hs : e.synced <;> simp only [hs, Bool.false_eq_true, if_false, if_true] at ha
    · cases henv : env k <;> simp only [henv] at ha
      · rcases List.mem_cons.mp ha with h | h
        · exact ⟨by simp [h], h ▸ hs⟩
        · have := ih (k + 1) a h
          exact ⟨by simp [this.1], this.2⟩
      · rcases List.mem_cons.mp ha with h | h
        · exact ⟨by simp [h], h ▸ hs⟩
        · have := ih (k + 1) a h
          exact ⟨by simp [this.1], this.2⟩
      · have : a = e := by simpa using ha
        exact ⟨by simp [this], this ▸ hs⟩
    · have := ih k a ha
      exact ⟨by simp [this.1], this.2⟩

theorem syncLoop_noTransport (env : Nat → Outcome) :
    ∀ (es : List Entry) (k : Nat), (∀ e ∈ es, e.synced = false) →
      (∀ j, j < es.length → env (k + j) ≠ .transportError) →
      (syncLoop env es k).requests = es ∧
      (syncLoop env es k).updated.filter (fun e => !e.synced) = notAccepted env k es := by
  intro es
  induction es with
  | nil => intro k _ _; exact ⟨rfl, rfl⟩
  | cons e es ih =>
    intro k h hT
    have he : e.synced = false := h e (by simp)
    have hes : ∀ x ∈ es, x.synced = false := fun x hx => h x (by simp [hx])
    have hT' : ∀ j, j < es.length → env (k + 1 + j) ≠ .transportError := by
      intro j hj
      have := hT (j + 1) (by simpa using Nat.succ_lt_succ hj)
      rwa [show k + (j + 1) = k + 1 + j by omega] at this
    have hk : env k ≠ .transportError := by
      have := hT 0 (by simp)
      simpa using this
    obtain ⟨ih1, ih2⟩ := ih (k + 1) hes hT'
    simp only [syncLoop, he, Bool.false_eq_true, if_false]
    cases henv : env k
    · constructor
      · simp [ih1]
      · simp only [LoopOut.updated, notAccepted, henv, if_true]
        rw [List.filter_cons_of_neg (by simp), ih2]
    · constructor
      · simp [ih1]
      · simp only [LoopOut.updated, notAccepted, henv]
        rw [List.filter_cons_of_pos (by simp [he]), ih2]
        simp
    · exact absurd henv hk

theorem syncLoop_transport (env : Nat → Outcome) :
    ∀ (es : List Entry) (k i : Nat), (∀ e ∈ es, e.synced = false) →
      i < es.length → env (k + i) = .transportError →
      (∀ j, j < i → env (k + j) ≠ .transportError) →
      (syncLoop env es k).requests = es.take (i + 1) ∧
      (syncLoop env es k).updated.filter (fun e => !e.synced) =
        notAccepted env k (es.take i) ++ es.drop i := by
  intro es
  induction es with
  | nil => intro k i _ hi; exact absurd hi (by simp)
  | cons e es ih =>
    intro k i h hi hT hpre
    have he : e.synced = false := h e (by simp)
    have hes : ∀ x ∈ es, x.synced = false := fun x hx => h x (by simp [hx])
    cases i with
    | zero =>
      have hk : env k = .transportError := by simpa using hT
      simp only [syncLoop, he, Bool.false_eq_true, if_false, hk]
      constructor
      · simp
      · simp only [List.take_zero, notAccepted, List.drop_zero, List.nil_append]
        rw [List.filter_eq_self.mpr]
        intro x hx
        simp [h x hx]
    | succ i' =>
      have hk : env k ≠ .transportError := by
        have := hpre 0 (Nat.succ_pos i')
        simpa using this
      have hT2 : env (k + 1 + i') = .transportError := by
        rwa [show k + 1 + i' = k + (i' + 1) by omega]
      have hpre' : ∀ j, j < i' → env (k + 1 + j) ≠ .transportError := by
        intro j hj
        have := hpre (j + 1) (Nat.succ_lt_succ hj)
        rwa [show k + (j + 1) = k + 1 + j by omega] at this
      obtain ⟨ih1, ih2⟩ := ih (k + 1) i' hes (by simpa using Nat.lt_of_succ_lt_succ hi) hT2 hpre'
      simp only [syncLoop, he, Bool.false_eq_true, if_false]
      cases henv : env k
      · constructor
        · simp [ih1]
        · simp only [LoopOut.updated, List.take_succ_cons, notAccepted, henv, if_true,
            List.drop_succ_cons]
          rw [List.filter_cons_of_neg (by simp), ih2]
      · constructor
        · simp [ih1]
        · simp only [LoopOut.updated, List.take_succ_cons, notAccepted, henv,
            List.drop_succ_cons]
          rw [List.filter_cons_of_pos (by simp [he]), ih2]
          simp
      · exact absurd henv hk

/-!
Trace invariant: starting from a fresh page, every ghost tag below the tag
counter is accounted for exactly once — either still queued or accepted by
the endpoint — and the persisted queue mirrors the in-memory one.
-/

theorem syncPendingEntries_of_nil (env : Nat → Outcome) (s : OfflineState)
    (h : s.pendingEntries = []) :
    syncPendingEntries env s = (s, { requests := [], accepted := [] }) := by
  rw [syncPendingEntries, if_pos (by simp [h])]

structure TraceInv (s : OfflineState) (acc : List Nat) : Prop where
  storage_eq : s.storage.getD [] = s.pendingEntries
  unsynced : ∀ e ∈ s.pendingEntries, e.synced = false
  tags_lt : ∀ e ∈ s.pendingEntries, e.tag < s.nextTag
  acc_lt : ∀ t ∈ acc, t < s.nextTag
  one : ∀ t, t < s.nextTag → (queueTags s).count t + acc.count t = 1

theorem init_inv : TraceInv initState [] := by
  refine ⟨rfl, ?_, ?_, ?_, ?_⟩ <;> simp [initState, queueTags]

theorem syncPendingEntries_of_ne_nil (env : Nat → Outcome) (s : OfflineState)
    (h : s.pendingEntries ≠ []) :
    syncPendingEntries env s =
      ({ s with
          pendingEntries :=
            (syncLoop env s.pendingEntries 0).updated.filter (fun e => !e.synced),
          storage :=
            some ((syncLoop env s.pendingEntries 0).updated.filter (fun e => !e.synced)) },
       { requests := (syncLoop env s.pendingEntries 0).requests,
         accepted := (syncLoop env s.pendingEntries 0).succeeded }) := by
  rw [syncPendingEntries, if_neg]
  simpa using h

theorem drain_pending_of_ne_nil (env : Nat → Outcome) (s : OfflineState)
    (h : s.pendingEntries ≠ []) :
    (syncPendingEntries env s).1.pendingEntries =
      (syncLoop env s.pendingEntries 0).updated.filter (fun e => !e.synced) := by
  rw [syncPendingEntries_of_ne_nil env s h]

theorem drain_storage_of_ne_nil (env : Nat → Outcome) (s : OfflineState)
    (h : s.pendingEntries ≠ []) :
    (syncPendingEntries env s).1.storage =
      some ((syncLoop env s.pendingEntries 0).updated.filter (fun e => !e.synced)) := by
  rw [syncPendingEntries_of_ne_nil env s h]

theorem drain_requests_of_ne_nil (env : Nat → Outcome) (s : OfflineState)
    (h : s.pendingEntries ≠ []) :
    (syncPendingEntries env s).2.requests = (syncLoop env s.pendingEntries 0).requests := by
  rw [syncPendingEntries_of_ne_nil env s h]

theorem drain_accepted_of_ne_nil (env : Nat → Outcome) (s : OfflineState)
    (h : s.pendingEntries ≠ []) :
    (syncPendingEntries env s).2.accepted = (syncLoop env s.pendingEntries 0).succeeded := by
  rw [syncPendingEntries_of_ne_nil env s h]

theorem drain_nextTag (env : Nat → Outcome) (s : OfflineState) :
    (syncPendingEntries env s).1.nextTag = s.nextTag := by
  by_cases hq : s.pendingEntries = []
  · rw [syncPendingEntries_of_nil env s hq]
  · rw [syncPendingEntries_of_ne_nil env s hq]

theorem drain_queueTags_sub (env : Nat → Outcome) (s : OfflineState) :
    ∀ x ∈ queueTags (syncPendingEntries env s).1, x ∈ queueTags s := by
  intro x hx
  by_cases hq : s.pendingEntries = []
  · rwa [syncPendingEntries_of_nil env s hq] at hx
  · rw [queueTags, drain_pending_of_ne_nil env s hq] at hx
    rcases List.mem_map.mp hx with ⟨e, he, rfl⟩
    have he' : e ∈ (syncLoop env s.pendingEntries 0).updated := List.mem_of_mem_filter he
    have hm : e.tag ∈ (syncLoop env s.pendingEntries 0).updated.map Entry.tag :=
      List.mem_map_of_mem _ he'
    rwa [syncLoop_updated_map Entry.tag (fun _ => rfl) env s.pendingEntries 0] at hm

theorem drain_count (env : Nat → Outcome) (s : OfflineState)
    (hu : ∀ e ∈ s.pendingEntries, e.synced = false) (t : Nat) :
    (queueTags (syncPendingEntries env s).1).count t
      + ((syncPendingEntries env s).2.accepted.map Entry.tag).count t
      = (queueTags s).count t := by
  by_cases hq : s.pendingEntries = []
  · rw [syncPendingEntries_of_nil env s hq]
    simp
  · rw [queueTags, drain_pending_of_ne_nil env s hq, drain_accepted_of_ne_nil env s hq]
    have hperm : List.Perm
        ((syncLoop env s.pendingEntries 0).updated.filter (fun e => e.synced) ++
          (syncLoop env s.pendingEntries 0).updated.filter (fun e => !e.synced))
        (syncLoop env s.pendingEntries 0).updated :=
      List.filter_append_perm _ _
    have hcnt := (hperm.map Entry.tag).count_eq t
    rw [List.map_append, List.count_append,
      syncLoop_updated_map Entry.tag (fun _ => rfl) env s.pendingEntries 0] at hcnt
    rw [syncLoop_succeeded_eq_filter env s.pendingEntries 0 hu]
    rw [queueTags]
    omega

theorem step_requests_sub (s : OfflineState) (op : Op) :
    ∀ a ∈ (step s op).2.requests, a ∈ s.pendingEntries := by
  intro a ha
  cases op with
  | save d now => simp [step, saveOfflineEntry] at ha
  | drain env =>
    by_cases hq : s.pendingEntries = []
    · rw [step, syncPendingEntries_of_nil env s hq] at ha
      simp at ha
    · rw [step, drain_requests_of_ne_nil env s hq] at ha
      exact (syncLoop_requests_sub env s.pendingEntries 0 a ha).1

theorem step_inv {s : OfflineState} {acc : List Nat} (op : Op) (h : TraceInv s acc) :
    TraceInv (step s op).1 (acc ++ (step s op).2.accepted.map Entry.tag) := by
  cases op with
  | save d now =>
    simp only [step, saveOfflineEntry, List.map_nil, List.append_nil]
    constructor
    · simp
    · intro e he
      rcases List.mem_append.mp he with h1 | h1
      · exact h.unsynced e h1
      · simp only [List.mem_singleton] at h1
        subst h1
        rfl
    · intro e he
      rcases List.mem_append.mp he with h1 | h1
      · exact Nat.lt_succ_of_lt (h.tags_lt e h1)
      · simp only [List.mem_singleton] at h1
        subst h1
        exact Nat.lt_succ_self _
    · intro t ht
      exact Nat.lt_succ_of_lt (h.acc_lt t ht)
    · intro t ht
      have hq : queueTags
          { pendingEntries := s.pendingEntries ++ [mkEntry d now s.nextTag],
            storage := some (s.pendingEntries ++ [mkEntry d now s.nextTag]),
            nextTag := s.nextTag + 1 } = queueTags s ++ [s.nextTag] := by
        simp [queueTags, mkEntry]
      rw [hq, List.count_append]
      rcases Nat.lt_succ_iff_lt_or_eq.mp ht with h1 | h1
      · have hne : s.nextTag ≠ t := fun hEq => absurd (hEq ▸ h1) (Nat.lt_irrefl _)
        have : ([s.nextTag] : List Nat).count t = 0 := by
          simp [List.count_singleton]
          omega
        rw [this]
        have := h.one t h1
        omega
      · have hq0 : (queueTags s).count t = 0 := by
          apply List.count_eq_zero_of_not_mem
          intro hmem
          rcases List.mem_map.mp hmem with ⟨e, he, htag⟩
          have := h.tags_lt e he
          omega
        have ha0 : acc.count t = 0 := by
          apply List.count_eq_zero_of_not_mem
          intro hmem
          have := h.acc_lt t hmem
          omega
        have hs1 : ([s.nextTag] : List Nat).count t = 1 := by
          simp [h1]
        omega
  | drain env =>
    have hnt := drain_nextTag env s
    constructor
    · by_cases hq : s.pendingEntries = []
      · rw [step, syncPendingEntries_of_nil env s hq]
        exact h.storage_eq
      · rw [step, drain_storage_of_ne_nil env s hq, drain_pending_of_ne_nil env s hq]
        rfl
    · intro e he
      by_cases hq : s.pendingEntries = []
      · rw [step, syncPendingEntries_of_nil env s hq] at he
        exact h.unsynced e he
      · rw [step, drain_pending_of_ne_nil env s hq] at he
        have := List.of_mem_filter he
        simpa using this
    · intro e he
      have hmem : e.tag ∈ queueTags s :=
        drain_queueTags_sub env s e.tag (List.mem_map_of_mem Entry.tag he)
      rcases List.mem_map.mp hmem with ⟨e', he', htag⟩
      rw [step, hnt]
      exact htag ▸ h.tags_lt e' he'
    · intro t ht
      rcases List.mem_append.mp ht with h1 | h1
      · rw [step, hnt]
        exact h.acc_lt t h1
      · rcases List.mem_map.mp h1 with ⟨e, he, htag⟩
        by_cases hq : s.pendingEntries = []
        · rw [step, syncPendingEntries_of_nil env s hq] at he
          simp at he
        · rw [step, drain_accepted_of_ne_nil env s hq,
            syncLoop_succeeded_eq_filter env s.pendingEntries 0 h.unsynced] at he
          have he' : e ∈ (syncLoop env s.pendingEntries 0).updated :=
            List.mem_of_mem_filter he
          have hm : e.tag ∈ (syncLoop env s.pendingEntries 0).updated.map Entry.tag :=
            List.mem_map_of_mem _ he'
          rw [syncLoop_updated_map Entry.tag (fun _ => rfl) env s.pendingEntries 0] at hm
          rcases List.mem_map.mp hm with ⟨e', he', htag'⟩
          rw [step, hnt]
          exact htag ▸ htag' ▸ h.tags_lt e' he'
    · intro t ht
      rw [step, hnt] at ht
      have hc := drain_count env s h.unsynced t
      have hone := h.one t ht
      rw [List.count_append]
      rw [step]
      omega

theorem run_inv (ops : List Op) : ∀ {s : OfflineState} {acc : List Nat}, TraceInv s acc →
    TraceInv (run s ops).1 (acc ++ acceptedTags (run s ops).2) := by
  induction ops with
  | nil => intro s acc h; simpa [run, acceptedTags] using h
  | cons op ops ih =>
    intro s acc h
    have h1 := step_inv op h
    have h2 := ih h1
    simpa [run, acceptedTags, List.append_assoc] using h2

theorem step_dead {s : OfflineState} {t : Nat} (op : Op)
    (h1 : t < s.nextTag) (h2 : t ∉ queueTags s) :
    t < (step s op).1.nextTag ∧ t ∉ queueTags (step s op).1 := by
  cases op with
  | save d now =>
    refine ⟨Nat.lt_succ_of_lt h1, ?_⟩
    intro hmem
    have hq : queueTags (step s (.save d now)).1 = queueTags s ++ [s.nextTag] := by
      simp [step, saveOfflineEntry, queueTags, mkEntry]
    rw [hq] at hmem
    rcases List.mem_append.mp hmem with hmem | hmem
    · exact h2 hmem
    · simp only [List.mem_singleton] at hmem
      exact absurd (hmem ▸ h1) (Nat.lt_irrefl _)
  | drain env =>
    refine ⟨by rw [step, drain_nextTag]; exact h1, ?_⟩
    intro hmem
    exact h2 (drain_queueTags_sub env s t hmem)

/-!
Injectivity of the decimal rendering behind the id scheme
`offline_<timestamp>`: core's `Nat.repr` is characterized via `Nat.digits`.
-/

/-- The characters `Nat.toDigitsCore` produces for a number: `'0'` for zero,
otherwise its base-10 digits, most significant first. -/
def decChars (n : Nat) : List Char :=
  if n = 0 then ['0'] else ((Nat.digits 10 n).map Nat.digitChar).reverse

theorem toDigitsCore_eq_decChars :
    ∀ (f n : Nat) (ds : List Char), n < f →
      Nat.toDigitsCore 10 f n ds = decChars n ++ ds := by
  intro f
  induction f with
  | zero => intro n ds h; exact absurd h (Nat.not_lt_zero n)
  | succ f ih =>
    intro n ds h
    simp only [Nat.toDigitsCore]
    by_cases h10 : n / 10 = 0
    · rw [if_pos h10]
      have hn10 : n < 10 := by omega
      suffices hd : decChars n = [Nat.digitChar (n % 10)] by rw [hd]; rfl
      by_cases hn : n = 0
      · subst hn; rfl
      · rw [decChars, if_neg hn,
          Nat.digits_def' (by norm_num : 1 < 10) (Nat.pos_of_ne_zero hn), h10]
        simp
    · rw [if_neg h10]
      have hpos : 0 < n := by omega
      have hlt : n / 10 < f := by
        have h1 : n / 10 < n := Nat.div_lt_self hpos (by norm_num)
        omega
      rw [ih (n / 10) (Nat.digitChar (n % 10) :: ds) hlt]
      have hn : n ≠ 0 := by omega
      have hd : decChars n = decChars (n / 10) ++ [Nat.digitChar (n % 10)] := by
        rw [decChars, if_neg hn,
          Nat.digits_def' (by norm_num : 1 < 10) hpos,
          List.map_cons, List.reverse_cons, decChars, if_neg h10]
      rw [hd, List.append_assoc]
      rfl

theorem repr_eq_decChars (n : Nat) : Nat.repr n = (decChars n).asString := by
  rw [Nat.repr, Nat.toDigits,
    toDigitsCore_eq_decChars (n + 1) n [] (Nat.lt_succ_self n), List.append_nil]

theorem digitChar_inj_of_lt (a b : Nat) (ha : a < 10) (hb : b < 10)
    (h : Nat.digitChar a = Nat.digitChar b) : a = b := by
  have key : ∀ x y : Fin 10, Nat.digitChar x.val = Nat.digitChar y.val → x = y := by decide
  exact congrArg Fin.val (key ⟨a, ha⟩ ⟨b, hb⟩ h)

theorem map_digitChar_inj :
    ∀ (l1 l2 : List Nat), (∀ d ∈ l1, d < 10) → (∀ d ∈ l2, d < 10) →
      l1.map Nat.digitChar = l2.map Nat.digitChar → l1 = l2 := by
  intro l1
  induction l1 with
  | nil =>
    intro l2 _ _ h
    cases l2 with
    | nil => rfl
    | cons b l2 => simp at h
  | cons a l1 ih =>
    intro l2 h1 h2 h
    cases l2 with
    | nil => simp at h
    | cons b l2 =>
      simp only [List.map_cons, List.cons.injEq] at h
      have hab := digitChar_inj_of_lt a b (h1 a (by simp)) (h2 b (by simp)) h.1
      cases hab
      rw [ih l2 (fun d hd => h1 d (by simp [hd])) (fun d hd => h2 d (by simp [hd])) h.2]

theorem decChars_inj : ∀ m n : Nat, decChars m = decChars n → m = n := by
  have nonzero : ∀ n : Nat, n ≠ 0 → decChars n = ['0'] → False := by
    intro n hn h
    rw [decChars, if_neg hn] at h
    have h' : (Nat.digits 10 n).map Nat.digitChar = ['0'] := by
      have := congrArg List.reverse h
      simpa using this
    have hdig : Nat.digits 10 n = [0] := by
      apply map_digitChar_inj (Nat.digits 10 n) [0]
        (fun d hd => Nat.digits_lt_base (by norm_num) hd)
        (fun d hd => by simp at hd; omega)
      simpa using h'
    have := Nat.ofDigits_digits 10 n
    rw [hdig] at this
    simp [Nat.ofDigits] at this
    omega
  intro m n h
  by_cases hm : m = 0 <;> by_cases hn : n = 0
  · rw [hm, hn]
  · subst hm
    rw [show decChars 0 = ['0'] from rfl] at h
    exact absurd h.symm (nonzero n hn)
  · subst hn
    rw [show decChars 0 = ['0'] from rfl] at h
    exact absurd h (nonzero m hm)
  · rw [decChars, if_neg hm, decChars, if_neg hn] at h
    have h' := congrArg List.reverse h
    simp only [List.reverse_reverse] at h'
    have hdig := map_digitChar_inj (Nat.digits 10 m) (Nat.digits 10 n)
      (fun d hd => Nat.digits_lt_base (by norm_num) hd)
      (fun d hd => Nat.digits_lt_base (by norm_num) hd) h'
    have hm' := Nat.ofDigits_digits 10 m
    have hn' := Nat.ofDigits_digits 10 n
    rw [← hm', ← hn', hdig]

theorem repr_inj {m n : Nat} (h : Nat.repr m = Nat.repr n) : m = n := by
  rw [repr_eq_decChars, repr_eq_decChars] at h
  apply decChars_inj
  have := congrArg String.data h
  simpa [List.asString] using this

theorem offline_id_inj {m n : Nat}
    (h : "offline_" ++ Nat.repr m = "offline_" ++ Nat.repr n) : m = n := by
  apply repr_inj
  have hd := congrArg String.data h
  simp only [String.data_append] at hd
  have htail := List.append_cancel_left hd
  cases hrm : Nat.repr m with
  | mk l => cases hrn : Nat.repr n with
    | mk l' =>
      rw [hrm, hrn] at htail
      simp only at htail
      rw [htail]

theorem run_dead (ops : List Op) : ∀ {s : OfflineState} {t : Nat},
    t < s.nextTag → t ∉ queueTags s →
    t < (run s ops).1.nextTag ∧ t ∉ queueTags (run s ops).1 := by
  induction ops with
  | nil => intro s t h1 h2; exact ⟨h1, h2⟩
  | cons op ops ih =>
    intro s t h1 h2
    obtain ⟨h1', h2'⟩ := step_dead op h1 h2
    exact ih h1' h2'

example : parseJson "42" = .ok (.num "42") := rfl
example : parseFails "not json" = true := rfl
example : parseJson "  [1, 2e5, -0.25, \"a\\n\", true, null]  " =
    .ok (.arr [.num "1", .num "2e5", .num "-0.25", .str "a\n", .bool true, .null]) := rfl
example : parseFails "[1," = true := rfl
example : parseFails "01" = true := rfl
example : parseFails "" = true := rfl
example : loadPendingEntries (some "42") (Json.arr []) = Json.num "42" := rfl

/-!  Identity of ids and timestamps across a trace (for the id-uniqueness claim). -/

/-- Timestamps passed to the appends of an operation sequence, in order. -/
def savedTimestamps : List Op → List Nat
  | [] => []
  | .save _ now :: ops => now :: savedTimestamps ops
  | .drain _ :: ops => savedTimestamps ops

/-- Timestamps contributed by a single operation. -/
def opTimestamps : Op → List Nat
  | .save _ now => [now]
  | .drain _ => []

theorem savedTimestamps_cons (op : Op) (ops : List Op) :
    savedTimestamps (op :: ops) = opTimestamps op ++ savedTimestamps ops := by
  cases op <;> rfl

theorem syncLoop_updated_mem (env : Nat → Outcome) :
    ∀ (es : List Entry) (k : Nat), ∀ x ∈ (syncLoop env es k).updated,
      ∃ y ∈ es, x = y ∨ x = { y with synced := true } := by
  intro es
  induction es with
  | nil => intro k x hx; simp [syncLoop] at hx
  | cons e es ih =>
    intro k x hx
    simp only [syncLoop] at hx
    cases hs : e.synced <;> simp only [hs, Bool.false_eq_true, if_false, if_true] at hx
    · cases henv : env k <;> simp only [henv] at hx
      · rcases List.mem_cons.mp hx with h | h
        · exact ⟨e, by simp, Or.inr h⟩
        · rcases ih (k + 1) x h with ⟨y, hy, hxy⟩
          exact ⟨y, by simp [hy], hxy⟩
      · rcases List.mem_cons.mp hx with h | h
        · exact ⟨e, by simp, Or.inl h⟩
        · rcases ih (k + 1) x h with ⟨y, hy, hxy⟩
          exact ⟨y, by simp [hy], hxy⟩
      · rcases List.mem_cons.mp hx with h | h
        · exact ⟨e, by simp, Or.inl h⟩
        · exact ⟨x, by simp [h], Or.inl rfl⟩
    · rcases List.mem_cons.mp hx with h | h
      · exact ⟨e, by simp, Or.inl h⟩
      · rcases ih k x h with ⟨y, hy, hxy⟩
        exact ⟨y, by simp [hy], hxy⟩

/-- Every queued entry's id is the rendering of its own timestamp. -/
def IdWf (s : OfflineState) : Prop :=
  ∀ e ∈ s.pendingEntries, e.id = "offline_" ++ Nat.repr e.timestamp

theorem step_idWf {s : OfflineState} (op : Op) (h : IdWf s) : IdWf (step s op).1 := by
  cases op with
  | save d now =>
    intro e he
    simp only [step, saveOfflineEntry] at he
    rcases List.mem_append.mp he with h1 | h1
    · exact h e h1
    · simp only [List.mem_singleton] at h1
      subst h1
      rfl
  | drain env =>
    intro e he
    by_cases hq : s.pendingEntries = []
    · rw [step, syncPendingEntries_of_nil env s hq] at he
      exact h e he
    · rw [step, drain_pending_of_ne_nil env s hq] at he
      have he' := List.mem_of_mem_filter he
      rcases syncLoop_updated_mem env s.pendingEntries 0 e he' with ⟨y, hy, hxy⟩
      rcases hxy with h2 | h2
      · rw [h2]
        exact h y hy
      · rw [h2]
        exact h y hy

theorem run_idWf (ops : List Op) : ∀ {s : OfflineState}, IdWf s → IdWf (run s ops).1 := by
  induction ops with
  | nil => intro s h; exact h
  | cons op ops ih => intro s h; exact ih (step_idWf op h)

theorem step_ts_sublist (s : OfflineState) (op : Op) :
    List.Sublist ((step s op).1.pendingEntries.map Entry.timestamp)
      (s.pendingEntries.map Entry.timestamp ++ opTimestamps op) := by
  cases op with
  | save d now =>
    simp only [step, saveOfflineEntry, opTimestamps]
    have hmap : (s.pendingEntries ++ [mkEntry d now s.nextTag]).map Entry.timestamp
        = s.pendingEntries.map Entry.timestamp ++ [now] := by
      simp [mkEntry]
    rw [hmap]
  | drain env =>
    by_cases hq : s.pendingEntries = []
    · rw [step, syncPendingEntries_of_nil env s hq]
      simp [opTimestamps]
    · rw [step, drain_pending_of_ne_nil env s hq]
      have h1 : List.Sublist
          ((syncLoop env s.pendingEntries 0).updated.filter (fun e => !e.synced))
          (syncLoop env s.pendingEntries 0).updated := List.filter_sublist _
      have h2 := h1.map Entry.timestamp
      rw [syncLoop_updated_map Entry.timestamp (fun _ => rfl) env s.pendingEntries 0] at h2
      simpa [opTimestamps] using h2

theorem run_ts_sublist (ops : List Op) : ∀ (s : OfflineState),
    List.Sublist ((run s ops).1.pendingEntries.map Entry.timestamp)
      (s.pendingEntries.map Entry.timestamp ++ savedTimestamps ops) := by
  induction ops with
  | nil => intro s; simp [run, savedTimestamps]
  | cons op ops ih =>
    intro s
    have h1 := ih (step s op).1
    have h2 := (step_ts_sublist s op).append_right (savedTimestamps ops)
    have h3 := h1.trans h2
    rw [savedTimestamps_cons, ← List.append_assoc]
    exact h3

/-!  Concrete fixtures for witnesses and counterexamples. -/

def entryData0 : EntryData :=
  { client := "Acme", matter := "M1", date_of_work := "2024-01-02",
    hours := "1.5", timekeeper := "TK", desc := "drafting" }

def entryA : Entry :=
  { client := "cA", matter := "mA", date_of_work := "dA", hours := "hA",
    timekeeper := "tA", desc := "A", id := "idA", timestamp := 1,
    synced := false, tag := 10 }

def entryB : Entry :=
  { client := "cB", matter := "mB", date_of_work := "dB", hours := "hB",
    timekeeper := "tB", desc := "B", id := "idB", timestamp := 2,
    synced := false, tag := 11 }

def entryC : Entry :=
  { client := "cC", matter := "mC", date_of_work := "dC", hours := "hC",
    timekeeper := "tC", desc := "C", id := "idC", timestamp := 3,
    synced := false, tag := 12 }

def entrySyncedTrue : Entry :=
  { client := "cS", matter := "mS", date_of_work := "dS", hours := "hS",
    timekeeper := "tS", desc := "S", id := "idS", timestamp := 4,
    synced := true, tag := 13 }

def stateABC : OfflineState :=
  { pendingEntries := [entryA, entryB, entryC],
    storage := some [entryA, entryB, entryC], nextTag := 13 }

def stateAB : OfflineState :=
  { pendingEntries := [entryA, entryB], storage := some [entryA, entryB],
    nextTag := 12 }

def stateS : OfflineState :=
  { pendingEntries := [entrySyncedTrue], storage := some [entrySyncedTrue],
    nextTag := 14 }

def envAllOk : Nat → Outcome := fun _ => .ok

def envW3 : Nat → Outcome := fun k => if k = 0 then .ok else .transportError

def envW4 : Nat → Outcome := fun k => if k = 0 then .httpError else .ok

def opsW1 : List Op := [Op.save entryData0 5]

def opsW7 : List Op := [Op.save entryData0 3, Op.save entryData0 7]

def opsC7 : List Op := [Op.save entryData0 7, Op.save entryData0 7]

/-!  The claims. -/

/-- Claim C1: for every sequence of appends and drains with arbitrary
per-request outcomes, every appended entry (identified by its ghost tag,
assigned consecutively from 0 by the appends) is at every point either
present in the queue — which coincides with the persisted queue — or was
accepted (2xx) by the endpoint exactly once; never both absent and never
accepted. -/
theorem claim1_no_loss (ops : List Op) (t : Nat)
    (ht : t < (run initState ops).1.nextTag) :
    (run initState ops).1.storage.getD [] = (run initState ops).1.pendingEntries ∧
    (((∃ e ∈ (run initState ops).1.pendingEntries, e.tag = t) ∧
        acceptedCount (run initState ops).2 t = 0) ∨
      ((∀ e ∈ (run initState ops).1.pendingEntries, e.tag ≠ t) ∧
        acceptedCount (run initState ops).2 t = 1)) := by
  have hinv : TraceInv (run initState ops).1 (acceptedTags (run initState ops).2) := by
    have := run_inv ops init_inv
    simpa using this
  refine ⟨hinv.storage_eq, ?_⟩
  have hone := hinv.one t ht
  simp only [acceptedCount]
  by_cases hmem : t ∈ queueTags (run initState ops).1
  · left
    constructor
    · rcases List.mem_map.mp hmem with ⟨e, he, htag⟩
      exact ⟨e, he, htag⟩
    · have hpos : 0 < (queueTags (run initState ops).1).count t :=
        List.count_pos_iff.mpr hmem
      omega
  · right
    constructor
    · intro e he htag
      exact hmem (htag ▸ List.mem_map_of_mem Entry.tag he)
    · have h0 : (queueTags (run initState ops).1).count t = 0 :=
        List.count_eq_zero_of_not_mem hmem
      omega

theorem claim1_no_loss_witness :
    0 < (run initState opsW1).1.nextTag ∧
    ((run initState opsW1).1.storage.getD [] = (run initState opsW1).1.pendingEntries ∧
      (((∃ e ∈ (run initState opsW1).1.pendingEntries, e.tag = 0) ∧
          acceptedCount (run initState opsW1).2 0 = 0) ∨
        ((∀ e ∈ (run initState opsW1).1.pendingEntries, e.tag ≠ 0) ∧
          acceptedCount (run initState opsW1).2 0 = 1))) :=
  ⟨by decide, claim1_no_loss opsW1 0 (by decide)⟩

/-- Claim C2: an entry (identified by its ghost tag) whose POST was answered
2xx during some drain call is never POSTed again by any later drain call, for
any operations in between. -/
theorem claim2_no_duplication (ops1 : List Op) (op1 : Op) (ops2 : List Op)
    (op2 : Op) (t : Nat)
    (hacc : t ∈ (step (run initState ops1).1 op1).2.accepted.map Entry.tag) :
    t ∉ (step (run (step (run initState ops1).1 op1).1 ops2).1 op2).2.requests.map
      Entry.tag := by
  have hinv1 : TraceInv (run initState ops1).1 (acceptedTags (run initState ops1).2) := by
    have := run_inv ops1 init_inv
    simpa using this
  cases op1 with
  | save d now => simp [step, saveOfflineEntry] at hacc
  | drain env =>
    simp only [step] at hacc ⊢
    by_cases hq : (run initState ops1).1.pendingEntries = []
    · rw [syncPendingEntries_of_nil env _ hq] at hacc
      simp at hacc
    · have hacc' := hacc
      rw [drain_accepted_of_ne_nil env _ hq,
        syncLoop_succeeded_eq_filter env _ 0 hinv1.unsynced] at hacc'
      rcases List.mem_map.mp hacc' with ⟨e, he, htag⟩
      have heu : e ∈ (syncLoop env (run initState ops1).1.pendingEntries 0).updated :=
        List.mem_of_mem_filter he
      have hmemtag : t ∈ queueTags (run initState ops1).1 := by
        have hm := List.mem_map_of_mem Entry.tag heu
        rw [syncLoop_updated_map Entry.tag (fun _ => rfl) env _ 0] at hm
        exact htag ▸ hm
      have htlt : t < (run initState ops1).1.nextTag := by
        rcases List.mem_map.mp hmemtag with ⟨e', he', htag'⟩
        exact htag' ▸ hinv1.tags_lt e' he'
      have hcnt := drain_count env (run initState ops1).1 hinv1.unsynced t
      have hone := hinv1.one t htlt
      have hapos :
          0 < ((syncPendingEntries env (run initState ops1).1).2.accepted.map
            Entry.tag).count t :=
        List.count_pos_iff.mpr hacc
      have hdead1 : t ∉ queueTags (syncPendingEntries env (run initState ops1).1).1 := by
        intro hmem2
        have hpos2 :
            0 < (queueTags (syncPendingEntries env (run initState ops1).1).1).count t :=
          List.count_pos_iff.mpr hmem2
        omega
      have hlt1 : t < (syncPendingEntries env (run initState ops1).1).1.nextTag := by
        rw [drain_nextTag]
        exact htlt
      obtain ⟨hlt3, hdead3⟩ := run_dead ops2 hlt1 hdead1
      intro hreq
      rcases List.mem_map.mp hreq with ⟨a, ha, htaga⟩
      have hain := step_requests_sub _ op2 a ha
      exact hdead3 (htaga ▸ List.mem_map_of_mem Entry.tag hain)

theorem claim2_no_duplication_witness :
    (0 : Nat) ∈ (step (run initState opsW1).1
      (Op.drain envAllOk)).2.accepted.map Entry.tag ∧
    (0 : Nat) ∉ (step (run (step (run initState opsW1).1
      (Op.drain envAllOk)).1 []).1 (Op.drain envAllOk)).2.requests.map Entry.tag :=
  ⟨by decide, claim2_no_duplication opsW1 (Op.drain envAllOk) [] (Op.drain envAllOk) 0
    (by decide)⟩

/-- Claim C3: if the i-th request of a drain pass fails with a transport
error (and no earlier one did), the pass issues requests only for the first
i + 1 entries — none for any later entry — and the queue (in memory and as
persisted) afterwards consists of exactly the entries whose requests did not
succeed, in their original order: the non-2xx prefix entries, then everything
from the aborting entry on. -/
theorem claim3_abort_semantics (env : Nat → Outcome) (s : OfflineState) (i : Nat)
    (hu : ∀ e ∈ s.pendingEntries, e.synced = false)
    (hi : i < s.pendingEntries.length)
    (ht : env i = .transportError)
    (hpre : ∀ j, j < i → env j ≠ .transportError) :
    (syncPendingEntries env s).2.requests = s.pendingEntries.take (i + 1) ∧
    (syncPendingEntries env s).1.pendingEntries =
      notAccepted env 0 (s.pendingEntries.take i) ++ s.pendingEntries.drop i ∧
    (syncPendingEntries env s).1.storage =
      some (notAccepted env 0 (s.pendingEntries.take i) ++ s.pendingEntries.drop i) := by
  have hq : s.pendingEntries ≠ [] := by
    intro h
    rw [h] at hi
    simp at hi
  obtain ⟨h1, h2⟩ := syncLoop_transport env s.pendingEntries 0 i hu hi
    (by simpa using ht) (by intro j hj; simpa using hpre j hj)
  refine ⟨?_, ?_, ?_⟩
  · rw [drain_requests_of_ne_nil env s hq, h1]
  · rw [drain_pending_of_ne_nil env s hq, h2]
  · rw [drain_storage_of_ne_nil env s hq, h2]

theorem claim3_abort_semantics_witness :
    (syncPendingEntries envW3 stateABC).2.requests = [entryA, entryB] ∧
    (syncPendingEntries envW3 stateABC).1.pendingEntries = [entryB, entryC] ∧
    (syncPendingEntries envW3 stateABC).1.storage = some [entryB, entryC] := by
  obtain ⟨h1, h2, h3⟩ := claim3_abort_semantics envW3 stateABC 1 (by decide) (by decide)
    (by decide) (by decide)
  exact ⟨h1.trans (by decide), h2.trans (by decide), h3.trans (by decide)⟩

/-- Claim C4: in a drain pass with no transport error, a non-2xx response
does not stop the pass — a request is issued for every entry — and exactly
the entries whose requests were not answered 2xx remain, in order, in the
in-memory and persisted queue; in particular a rejected entry remains. -/
theorem claim4_partial_rejection (env : Nat → Outcome) (s : OfflineState)
    (hu : ∀ e ∈ s.pendingEntries, e.synced = false)
    (hne : s.pendingEntries ≠ [])
    (hnt : ∀ j, j < s.pendingEntries.length → env j ≠ .transportError) :
    (syncPendingEntries env s).2.requests = s.pendingEntries ∧
    (syncPendingEntries env s).1.pendingEntries = notAccepted env 0 s.pendingEntries ∧
    (syncPendingEntries env s).1.storage = some (notAccepted env 0 s.pendingEntries) := by
  obtain ⟨h1, h2⟩ := syncLoop_noTransport env s.pendingEntries 0 hu
    (by intro j hj; simpa using hnt j hj)
  refine ⟨?_, ?_, ?_⟩
  · rw [drain_requests_of_ne_nil env s hne, h1]
  · rw [drain_pending_of_ne_nil env s hne, h2]
  · rw [drain_storage_of_ne_nil env s hne, h2]

theorem claim4_partial_rejection_witness :
    (syncPendingEntries envW4 stateAB).2.requests = [entryA, entryB] ∧
    (syncPendingEntries envW4 stateAB).1.pendingEntries = [entryA] ∧
    (syncPendingEntries envW4 stateAB).1.storage = some [entryA] := by
  obtain ⟨h1, h2, h3⟩ := claim4_partial_rejection envW4 stateAB (by decide) (by decide)
    (by decide)
  exact ⟨h1.trans (by decide), h2.trans (by decide), h3.trans (by decide)⟩

/-- Claim C5: in a drain pass where every request is answered 2xx, exactly one
request per queued entry is issued, and the request sequence is the queue
itself in insertion order (the loop is sequential: request k + 1 is issued
only after request k completed). -/
theorem claim5_fifo_order (env : Nat → Outcome) (s : OfflineState)
    (hu : ∀ e ∈ s.pendingEntries, e.synced = false)
    (hok : ∀ j, j < s.pendingEntries.length → env j = .ok) :
    (syncPendingEntries env s).2.requests = s.pendingEntries ∧
    (syncPendingEntries env s).2.requests.length = s.pendingEntries.length := by
  by_cases hq : s.pendingEntries = []
  · rw [syncPendingEntries_of_nil env s hq]
    simp [hq]
  · obtain ⟨h1, _⟩ := syncLoop_noTransport env s.pendingEntries 0 hu
      (by intro j hj; simp [hok j hj])
    rw [drain_requests_of_ne_nil env s hq, h1]
    exact ⟨rfl, rfl⟩

theorem claim5_fifo_order_witness :
    (syncPendingEntries envAllOk stateABC).2.requests = [entryA, entryB, entryC] ∧
    (syncPendingEntries envAllOk stateABC).2.requests.length = 3 := by
  obtain ⟨h1, h2⟩ := claim5_fifo_order envAllOk stateABC (by decide) (by decide)
  exact ⟨h1.trans (by decide), by rw [h1]; decide⟩

/-- Claim C10: an entry already marked `synced` when a drain pass begins is
never the subject of a POST during the pass, yet the end-of-pass filter drops
it from the in-memory queue and from the persisted queue. -/
theorem claim10_presynced_dropped (env : Nat → Outcome) (s : OfflineState)
    (e : Entry) (he : e ∈ s.pendingEntries) (hs : e.synced = true) :
    (∀ a ∈ (syncPendingEntries env s).2.requests, a ≠ e) ∧
    e ∉ (syncPendingEntries env s).1.pendingEntries ∧
    (syncPendingEntries env s).1.storage =
      some ((syncPendingEntries env s).1.pendingEntries) := by
  have hq : s.pendingEntries ≠ [] := by
    intro h
    rw [h] at he
    simp at he
  refine ⟨?_, ?_, ?_⟩
  · intro a ha hae
    rw [drain_requests_of_ne_nil env s hq] at ha
    have h2 := (syncLoop_requests_sub env s.pendingEntries 0 a ha).2
    rw [hae, hs] at h2
    exact absurd h2 (by decide)
  · intro hmem
    rw [drain_pending_of_ne_nil env s hq] at hmem
    have h2 := List.of_mem_filter hmem
    rw [hs] at h2
    exact absurd h2 (by decide)
  · rw [drain_storage_of_ne_nil env s hq, drain_pending_of_ne_nil env s hq]

theorem claim10_presynced_dropped_witness :
    (∀ a ∈ (syncPendingEntries envAllOk stateS).2.requests, a ≠ entrySyncedTrue) ∧
    entrySyncedTrue ∉ (syncPendingEntries envAllOk stateS).1.pendingEntries ∧
    (syncPendingEntries envAllOk stateS).1.storage =
      some ((syncPendingEntries envAllOk stateS).1.pendingEntries) :=
  claim10_presynced_dropped envAllOk stateS entrySyncedTrue (by decide) (by decide)

/-- Claim C6 (amended): for every stored string on which deserialization
fails — `JSON.parse` raises — loading yields an empty sequence of pending
entries and raises nothing to the caller (the model's `loadPendingEntries` is
total: the only raising operation, the parse, sits inside the try/catch), the
in-memory queue being the constructor's empty array at the only call site.  A
stored string that parses as JSON but is not serialized queue data is kept
as parsed, not replaced by the empty sequence. -/
theorem claim6_corrupt_storage_recovery (s : String) (h : parseFails s = true) :
    loadPendingEntries (some s) (Json.arr []) = Json.arr [] := by
  simp only [loadPendingEntries]
  by_cases he : s.isEmpty
  · rw [if_pos he]
  · rw [if_neg he]
    cases hp : parseJson s with
    | error e => rfl
    | ok v =>
      simp only [parseFails, hp] at h
      exact absurd h (by decide)

theorem claim6_corrupt_storage_recovery_witness :
    parseFails "not json" = true ∧
    loadPendingEntries (some "not json") (Json.arr []) = Json.arr [] :=
  ⟨rfl, claim6_corrupt_storage_recovery "not json" rfl⟩

/-- Claim C6 counterexample: the stored string `42` is not valid serialized
queue data, yet loading from it does not yield an empty sequence: the parsed
number is assigned to `pendingEntries` as-is. -/
theorem claim6_counterexample :
    validSerializedQueue "42" = false ∧
    loadPendingEntries (some "42") (Json.arr []) = Json.num "42" ∧
    Json.num "42" ≠ Json.arr [] :=
  ⟨rfl, rfl, fun h => Json.noConfusion h⟩

/-- Claim C7 (amended): under any sequence of appends and drains from a fresh
page, if the `Date.now()` readings of the appends are pairwise distinct, the
id fields of the queued entries are pairwise distinct.  (With equal readings
two appends produce equal ids — see the counterexample.) -/
theorem claim7_unique_ids (ops : List Op) (h : (savedTimestamps ops).Nodup) :
    ((run initState ops).1.pendingEntries.map Entry.id).Nodup := by
  have hts : ((run initState ops).1.pendingEntries.map Entry.timestamp).Nodup := by
    have hsub := run_ts_sublist ops initState
    rw [show initState.pendingEntries.map Entry.timestamp = [] from rfl,
      List.nil_append] at hsub
    exact hsub.nodup h
  have hwf : IdWf (run initState ops).1 :=
    run_idWf ops (fun e he => by simp [initState] at he)
  have hmap : (run initState ops).1.pendingEntries.map Entry.id =
      ((run initState ops).1.pendingEntries.map Entry.timestamp).map
        (fun t => "offline_" ++ Nat.repr t) := by
    rw [List.map_map]
    exact List.map_congr_left (fun e he => hwf e he)
  rw [hmap]
  exact hts.map (fun a b hab => offline_id_inj hab)

theorem claim7_unique_ids_witness :
    (savedTimestamps opsW7).Nodup ∧
    ((run initState opsW7).1.pendingEntries.map Entry.id).Nodup :=
  ⟨by decide, claim7_unique_ids opsW7 (by decide)⟩

/-- Claim C7 counterexample: two appends within the same `Date.now()`
millisecond (reading 7 twice) leave the queue with two entries whose id
fields are both `offline_7`: the ids are not pairwise distinct. -/
theorem claim7_counterexample :
    ¬ ((run initState opsC7).1.pendingEntries.map Entry.id).Nodup := by
  decide

/-- Claim C8 (amended): every POST issued by the drain carries a body holding
exactly the fields client, matter, hours, desc and date_of_work of the entry
being synced; the body does not contain a timekeeper field. -/
theorem claim8_request_body_fields (env : Nat → Outcome) (s : OfflineState) :
    ∀ a ∈ (syncPendingEntries env s).2.requests,
      (requestBody a).lookup "client" = some a.client ∧
      (requestBody a).lookup "matter" = some a.matter ∧
      (requestBody a).lookup "hours" = some a.hours ∧
      (requestBody a).lookup "desc" = some a.desc ∧
      (requestBody a).lookup "date_of_work" = some a.date_of_work ∧
      (requestBody a).lookup "timekeeper" = none := by
  intro a _
  exact ⟨rfl, rfl, rfl, rfl, rfl, rfl⟩

theorem claim8_request_body_fields_witness :
    entryA ∈ (syncPendingEntries envAllOk stateAB).2.requests ∧
    ((requestBody entryA).lookup "client" = some entryA.client ∧
      (requestBody entryA).lookup "matter" = some entryA.matter ∧
      (requestBody entryA).lookup "hours" = some entryA.hours ∧
      (requestBody entryA).lookup "desc" = some entryA.desc ∧
      (requestBody entryA).lookup "date_of_work" = some entryA.date_of_work ∧
      (requestBody entryA).lookup "timekeeper" = none) :=
  ⟨by decide, claim8_request_body_fields envAllOk stateAB entryA (by decide)⟩

/-- Claim C8 counterexample: a drain issues a POST for an entry whose
timekeeper field is set, and the request body carries no timekeeper field:
the body built at offline.js lines 127-133 omits it. -/
theorem claim8_counterexample :
    entryA ∈ (syncPendingEntries envAllOk stateAB).2.requests ∧
    entryA.timekeeper = "tA" ∧
    (requestBody entryA).lookup "timekeeper" = none :=
  ⟨by decide, rfl, rfl⟩

/-- Claim C9: evaluating the worker's sync handler at the registered tag
`background-sync` shows the divergence: the handler runs `syncOfflineEntries`,
whose entire effect is the console line `Background sync triggered` — it
issues no POST for any pending entry and triggers no drain of any queue. -/
theorem claim9_background_sync_stub :
    (handleSyncEvent "background-sync").requests = [] ∧
    (handleSyncEvent "background-sync").logs = ["Background sync triggered"] :=
  ⟨rfl, rfl⟩
